import Mathlib

/-!
Verification development for the JeLLyFysh event-chain Monte Carlo kernel.

The definitions below are a shallow embedding of the Python sources:
* `jellyfysh/activator/internal_state/single_active_cell_occupancy.py`
  (the `SingleActiveCellOccupancy` cell-occupancy index),
* `src/event_handler/final_time_end_of_run_event_handler.py`,
* `src/event_handler/leaf_unit_cell_veto_event_handler.py`,
and, where a collaborator class is not part of the sources, a definition
modelled from the specification (marked as such in its doc comment).

Python floats are embedded as rationals, identifiers (tuples of non-negative
integers) as lists of naturals, dictionaries as association lists preserving
insertion order, and exceptions as an explicit error type through `Except`.
-/

namespace JellyFysh

/-- Error outcomes of the embedded Python code: uncaught exceptions. -/
inductive PyError where
  | assertionError
  | keyError
  | valueError
  | indexError
  deriving DecidableEq, Repr

/-- Configuration errors raised at construction time, named after their sites. -/
inductive ConfigurationError where
  | chargeWithCompositeCellLevel
  | chargeArgumentCount
  | endOfRunTimeNotPositive
  deriving DecidableEq, Repr

/-- Global state identifiers: variable-length tuples of non-negative integers. -/
abbrev Identifier := List Nat

/-- Cells of the spatial partition, viewed through the opaque `Cells` capability. -/
abbrev Cell := Nat

/-- The unit data stored in a node of the state tree (`base/unit.py`). -/
structure Unit' where
  identifier : Identifier
  position : List ℚ
  velocity : Option (List ℚ) := none
  timeStamp : Option ℚ := none
  charge : List (String × ℚ) := []
  deriving Inhabited

/-- Charge lookup on a unit; a charge name that is not stored is read as zero. -/
def Unit'.chargeValue (u : Unit') (name : String) : ℚ :=
  ((u.charge.filter (fun p => p.1 = name)).map Prod.snd).headI

/-- A node of the state tree: a unit together with its ordered children. -/
inductive Node where
  | mk (value : Unit') (children : List Node)

def Node.value : Node → Unit'
  | .mk v _ => v

def Node.children : Node → List Node
  | .mk _ c => c

/-- Modelled from the spec: `base.node.yield_nodes_on_level_below` is not among
the sources; per the data model, identifier length equals tree depth and the
cell level designates the tracked depth, so level `0` yields the node itself and
level `l + 1` yields the nodes on level `l` below each child, in order. -/
def yieldNodesOnLevelBelow : Node → Nat → List Node
  | n, 0 => [n]
  | n, l + 1 => (n.children.map (fun c => yieldNodesOnLevelBelow c l)).flatten

/-- The opaque `Cells` capability: position-to-cell lookup and cell enumeration. -/
structure CellSystem where
  cellList : List Cell
  positionToCell : List ℚ → Cell
  deriving Inhabited

/-- Association-list lookup (first entry with the given key), mirroring
Python dictionary access. -/
def getA (m : List (Cell × List Identifier)) (c : Cell) : Option (List Identifier) :=
  match m with
  | [] => none
  | (k, v) :: rest => if k = c then some v else getA rest c

/-- Association-list write: replace the value of the first entry with the given
key, or append a new entry, mirroring Python dictionary item assignment. -/
def setA (m : List (Cell × List Identifier)) (c : Cell) (v : List Identifier) :
    List (Cell × List Identifier) :=
  match m with
  | [] => [(c, v)]
  | (k, w) :: rest => if k = c then (c, v) :: rest else (k, w) :: setA rest c v

/-- Mirrors `d.setdefault(c, []).append(x)` on a Python dictionary of lists. -/
def sdA (m : List (Cell × List Identifier)) (c : Cell) (x : Identifier) :
    List (Cell × List Identifier) :=
  match getA m c with
  | some l => setA m c (l ++ [x])
  | none => m ++ [(c, [x])]

/-- Mirrors `del d[c]`: remove the first entry with the given key. -/
def delA (m : List (Cell × List Identifier)) (c : Cell) : List (Cell × List Identifier) :=
  match m with
  | [] => []
  | (k, w) :: rest => if k = c then rest else (k, w) :: delA rest c

/-- Mirrors `l.remove(x)` on a Python list: drop the first occurrence of `x`. -/
def removeFirst (l : List Identifier) (x : Identifier) : List Identifier :=
  match l with
  | [] => []
  | y :: ys => if y = x then ys else y :: removeFirst ys x

/-- The multiset of identifiers stored across all values of a dict-of-lists. -/
def listBag (m : List (Cell × List Identifier)) : Multiset Identifier :=
  match m with
  | [] => 0
  | (_, l) :: rest => (l : Multiset Identifier) + listBag rest

/-- The relevance predicate `_is_relevant_unit` selected at construction:
without a charge every unit is relevant, with a charge only units whose named
charge is nonzero. -/
def isRelevantUnit (charge : Option String) (u : Unit') : Bool :=
  match charge with
  | none => true
  | some c => decide (u.chargeValue c ≠ 0)

/-- The state of a `SingleActiveCellOccupancy` instance. -/
structure SingleActiveCellOccupancy where
  cells : CellSystem
  cellLevel : Nat
  maximumNumberOccupants : Int
  /-- Modelled from the spec: the `CellOccupancy` base class is not among the
  sources; a maximum number of occupants smaller than or equal to zero means an
  unbounded number of occupants per cell. -/
  numberOccupantsNotBounded : Bool
  charge : Option String
  surplus : List (Cell × List Identifier)
  occupants : List (Cell × List Identifier)
  activeUnitIdentifier : Option Identifier
  activeCell : Option Cell
  deriving Inhabited

/-- The constructor of `SingleActiveCellOccupancy`: raises a configuration error
when the cell level stores composite point objects but a charge is set. -/
def mkSingleActiveCellOccupancy (cells : CellSystem) (cellLevel : Nat)
    (maximumNumberOccupants : Int) (charge : Option String) (numberOfNodeLevels : Nat) :
    Except ConfigurationError SingleActiveCellOccupancy :=
  if cellLevel < numberOfNodeLevels ∧ charge ≠ none then
    .error .chargeWithCompositeCellLevel
  else
    .ok { cells := cells
          cellLevel := cellLevel
          maximumNumberOccupants := maximumNumberOccupants
          numberOccupantsNotBounded := decide (maximumNumberOccupants ≤ 0)
          charge := charge
          surplus := []
          occupants := cells.cellList.map (fun c => (c, []))
          activeUnitIdentifier := none
          activeCell := none }

namespace SingleActiveCellOccupancy

/-- The units on the cell level: the list comprehension
`[cnode.value for root_cnode in state for cnode in yield_nodes_on_level_below(root_cnode, cell_level - 1)]`. -/
def unitsOnCellLevel (cellLevel : Nat) (state : List Node) : List Unit' :=
  ((state.map (fun root => yieldNodesOnLevelBelow root (cellLevel - 1))).flatten).map Node.value

/-- One step of the `initialize` loop body: store one relevant unit's identifier
in `occupants` if its cell is under capacity, otherwise in `surplus`. -/
def insertUnitIdentifier (s : SingleActiveCellOccupancy) (u : Unit') :
    Except PyError SingleActiveCellOccupancy :=
  if isRelevantUnit s.charge u then
    let cell := s.cells.positionToCell u.position
    match getA s.occupants cell with
    | none => .error .keyError
    | some l =>
      if (l.length : Int) < s.maximumNumberOccupants ∨ s.numberOccupantsNotBounded = true then
        .ok { s with occupants := setA s.occupants cell (l ++ [u.identifier]) }
      else
        .ok { s with surplus := sdA s.surplus cell u.identifier }
  else
    .ok s

/-- `initialize`: store every relevant unit of the extracted global state. -/
def initializeState (s : SingleActiveCellOccupancy) (extractedGlobalState : List Node) :
    Except PyError SingleActiveCellOccupancy :=
  (unitsOnCellLevel s.cellLevel extractedGlobalState).foldlM insertUnitIdentifier s

/-- `__getitem__`: the occupants stored for a cell (`KeyError` on unknown cells). -/
def getItem (s : SingleActiveCellOccupancy) (cell : Cell) : Except PyError (List Identifier) :=
  match getA s.occupants cell with
  | some l => .ok l
  | none => .error .keyError

/-- First half of `update` when the active identifier changed: return the
previous active identifier into the index at its recorded active cell,
respecting capacity. -/
def returnPreviousActive (s : SingleActiveCellOccupancy) :
    Except PyError SingleActiveCellOccupancy :=
  match s.activeUnitIdentifier with
  | none => .ok s
  | some prevId =>
    match s.activeCell with
    | none => .error .keyError
    | some prevCell =>
      match getA s.occupants prevCell with
      | none => .error .keyError
      | some occList =>
        if (occList.length : Int) < s.maximumNumberOccupants ∨
            s.numberOccupantsNotBounded = true then
          .ok { s with occupants := setA s.occupants prevCell (occList ++ [prevId]) }
        else
          .ok { s with surplus := sdA s.surplus prevCell prevId }

/-- Second half of `update` when the new active unit is relevant: record it as
active and remove its identifier from the index.  The source guards the
promotion of a surplus identifier by `if not self._surplus.get(cell, True)`,
which is true only when the surplus entry exists and is empty; in that case
`pop()` on the empty list raises `IndexError`, and in every other case no
promotion takes place. -/
def trackNewActive (s : SingleActiveCellOccupancy) (newActiveUnit : Unit') :
    Except PyError SingleActiveCellOccupancy :=
  let activeCell := s.cells.positionToCell newActiveUnit.position
  let s1 := { s with activeCell := some activeCell
                     activeUnitIdentifier := some newActiveUnit.identifier }
  match getA s1.occupants activeCell with
  | none => .error .keyError
  | some occList =>
    match (if newActiveUnit.identifier ∈ occList then
             let s2 := { s1 with
               occupants := setA s1.occupants activeCell (removeFirst occList newActiveUnit.identifier) }
             match getA s2.surplus activeCell with
             | some [] => Except.error PyError.indexError
             | _ => Except.ok s2
           else
             match getA s1.surplus activeCell with
             | none => Except.error PyError.keyError
             | some surList =>
               if newActiveUnit.identifier ∈ surList then
                 Except.ok { s1 with
                   surplus := setA s1.surplus activeCell (removeFirst surList newActiveUnit.identifier) }
               else
                 Except.error PyError.valueError) with
    | .error e => .error e
    | .ok s3 =>
      match getA s3.surplus activeCell with
      | some [] => .ok { s3 with surplus := delA s3.surplus activeCell }
      | _ => .ok s3

/-- `update`: assert exactly one active unit on the cell level, then either
re-index (identifier changed) or only recompute the active cell. -/
def update (s : SingleActiveCellOccupancy) (extractedActiveGlobalState : List Node) :
    Except PyError SingleActiveCellOccupancy :=
  match unitsOnCellLevel s.cellLevel extractedActiveGlobalState with
  | [newActiveUnit] =>
    if some newActiveUnit.identifier ≠ s.activeUnitIdentifier then
      match returnPreviousActive s with
      | .error e => .error e
      | .ok t =>
        if isRelevantUnit t.charge newActiveUnit then
          trackNewActive t newActiveUnit
        else
          .ok { t with activeUnitIdentifier := none, activeCell := none }
    else
      .ok { s with activeCell := some (s.cells.positionToCell newActiveUnit.position) }
  | _ => .error .assertionError

/-- `yield_surplus`: all surplus identifiers across all cells, in dict order. -/
def yieldSurplus (s : SingleActiveCellOccupancy) : List Identifier :=
  (s.surplus.map Prod.snd).flatten

/-- `yield_active_cells`: zero or one (cell, identifier) pair. -/
def yieldActiveCells (s : SingleActiveCellOccupancy) : List (Cell × Option Identifier) :=
  match s.activeCell with
  | some c => [(c, s.activeUnitIdentifier)]
  | none => []

/-- The multiset of identifiers in the occupant lists. -/
def occBag (s : SingleActiveCellOccupancy) : Multiset Identifier :=
  listBag s.occupants

/-- The multiset of identifiers in the surplus lists. -/
def surplusBag (s : SingleActiveCellOccupancy) : Multiset Identifier :=
  listBag s.surplus

/-- The tracked active identifier, as a multiset of at most one element. -/
def activeBag (s : SingleActiveCellOccupancy) : Multiset Identifier :=
  match s.activeUnitIdentifier with
  | some i => {i}
  | none => 0

end SingleActiveCellOccupancy

/-- The multiset of identifiers of the relevant units among a list of units. -/
def relevantBag (charge : Option String) (us : List Unit') : Multiset Identifier :=
  ((us.filter (fun u => isRelevantUnit charge u)).map Unit'.identifier : List Identifier)

/-- Modelled from the spec: `base.node.yield_leaf_nodes` is not among the
sources; it generates a node itself when it has no children, and otherwise the
leaf nodes below each child, in order. -/
def yieldLeafNodes (n : Node) : List Node :=
  match n with
  | .mk v [] => [Node.mk v []]
  | .mk _ (c :: cs) =>
    yieldLeafNodes c ++ ((cs.attach.map (fun d => yieldLeafNodes d.1)).flatten)
termination_by n
decreasing_by
  · simp [Node.children]
    omega
  · have := List.sizeOf_lt_of_mem d.2
    simp only [Node.mk.sizeOf_spec, List.cons.sizeOf_spec]
    omega

/-- The state of a `FinalTimeEndOfRunEventHandler` instance. -/
structure FinalTimeEndOfRunEventHandler where
  outputHandler : Option String
  eventTime : ℚ

/-- The constructor of `FinalTimeEndOfRunEventHandler`: raises a configuration
error when the end-of-run time is not greater than zero. -/
def mkFinalTimeEndOfRunEventHandler (endOfRunTime : ℚ) (outputHandler : Option String) :
    Except ConfigurationError FinalTimeEndOfRunEventHandler :=
  if ¬ endOfRunTime > 0 then
    .error .endOfRunTimeNotPositive
  else
    .ok { outputHandler := outputHandler, eventTime := endOfRunTime }

/-- `send_event_time` of `FinalTimeEndOfRunEventHandler`: returns the stored
end-of-run time; the method takes no arguments, so the result cannot depend on
any active unit. -/
def FinalTimeEndOfRunEventHandler.sendEventTime (h : FinalTimeEndOfRunEventHandler) : ℚ :=
  h.eventTime

/-- The state of a `LeafUnitCellVetoEventHandler` instance.  The fields
`state`, `leafCnodes`, `leafUnits` and `activeLeafUnitIndex` are written by the
abstract `CellVetoEventHandler` base class during `send_event_time`; the fields
`activeIdentifier` and `activeCellIndex` are modelled from the spec as the
recorded active identifier and sampled active cell of the base class, which is
not among the sources. -/
structure LeafUnitCellVetoEventHandler where
  charge : Option String
  numberChargeArguments : Nat
  state : List Node
  leafCnodes : List Node
  leafUnits : List Unit'
  activeLeafUnitIndex : Nat
  activeIdentifier : Option Identifier
  activeCellIndex : Option Cell
  deriving Inhabited

/-- The constructor of `LeafUnitCellVetoEventHandler`: raises a configuration
error when a charge is set but the potential does not expect exactly two charge
arguments.  The number of charge arguments of the opaque potential is passed
explicitly. -/
def mkLeafUnitCellVetoEventHandler (numberChargeArguments : Nat) (charge : Option String) :
    Except ConfigurationError LeafUnitCellVetoEventHandler :=
  match charge with
  | none =>
    .ok { charge := none, numberChargeArguments := numberChargeArguments, state := [],
          leafCnodes := [], leafUnits := [], activeLeafUnitIndex := 0,
          activeIdentifier := none, activeCellIndex := none }
  | some c =>
    if numberChargeArguments = 2 then
      .ok { charge := some c, numberChargeArguments := numberChargeArguments, state := [],
            leafCnodes := [], leafUnits := [], activeLeafUnitIndex := 0,
            activeIdentifier := none, activeCellIndex := none }
    else
      .error .chargeArgumentCount

/-- The `_charges` closure selected in the constructor: all-ones charges when no
charge is set, and the two units' named charges otherwise. -/
def LeafUnitCellVetoEventHandler.charges (h : LeafUnitCellVetoEventHandler)
    (unitOne unitTwo : Unit') : List ℚ :=
  match h.charge with
  | none => List.replicate h.numberChargeArguments 1
  | some c => [unitOne.chargeValue c, unitTwo.chargeValue c]

/-- `send_out_state` of `LeafUnitCellVetoEventHandler`.  A `None` confirmation
returns the stored state unchanged.  Otherwise the target branch is appended,
exactly two leaf units are asserted, and the out-state of the two-leaf-unit
bounding potential is computed; that computation lives in the abstract base
class, which is not among the sources, and is passed as the opaque function
`calcOut` of the separation and the charges, as is the periodic
`separationVector` capability. -/
def LeafUnitCellVetoEventHandler.sendOutState
    (calcOut : LeafUnitCellVetoEventHandler → List ℚ → List ℚ → LeafUnitCellVetoEventHandler)
    (separationVector : List ℚ → List ℚ → List ℚ)
    (h : LeafUnitCellVetoEventHandler) (targetUnitRootCnode : Option Node) :
    Except PyError (LeafUnitCellVetoEventHandler × List Node) :=
  match targetUnitRootCnode with
  | none => .ok (h, h.state)
  | some cnode =>
    let h1 := { h with state := h.state ++ [cnode],
                       leafCnodes := h.leafCnodes ++ yieldLeafNodes cnode,
                       leafUnits := h.leafUnits ++ (yieldLeafNodes cnode).map Node.value }
    if h1.leafUnits.length = 2 then
      let activeUnit := h1.leafUnits.getD h1.activeLeafUnitIndex default
      let otherUnit := h1.leafUnits.getD (h1.activeLeafUnitIndex ^^^ 1) default
      let h2 := calcOut h1 (separationVector activeUnit.position otherUnit.position)
        (h1.charges (h1.leafUnits.getD 0 default) (h1.leafUnits.getD 1 default))
      .ok (h2, h2.state)
    else
      .error .assertionError

/-- Modelled from the spec: the
`SingleIndependentActivePeriodicDirectionEndOfChainEventHandler` source is not
among the sources (only its unit tests are).  It keeps its previously returned
candidate event time; candidate times are the multiples of the chain time, so
the first call returns the next multiple of the chain time after the time
stamp, and each later call asserts that the newly supplied time stamp lies in
the closed interval from the previous candidate time to the next candidate
time (previous candidate time plus chain time), which it returns. -/
structure EndOfChainEventHandler where
  chainTime : ℚ
  eventTime : Option ℚ

/-- Modelled from the spec: `send_event_time` of the end-of-chain handler,
reduced to its dependence on the active unit's time stamp.  A time stamp
outside the closed interval from the previous candidate time to the next
candidate time fails the assertion. -/
def EndOfChainEventHandler.sendEventTime (h : EndOfChainEventHandler) (timeStamp : ℚ) :
    Except PyError (EndOfChainEventHandler × ℚ) :=
  match h.eventTime with
  | none =>
    let candidate := (Int.floor (timeStamp / h.chainTime) + 1) * h.chainTime
    .ok ({ h with eventTime := some candidate }, candidate)
  | some previousCandidate =>
    if previousCandidate ≤ timeStamp ∧ timeStamp ≤ previousCandidate + h.chainTime then
      .ok ({ h with eventTime := some (previousCandidate + h.chainTime) },
           previousCandidate + h.chainTime)
    else
      .error .assertionError

/-- Unpack an `Except`, falling back to a default value on an error. -/
def okOr (d : α) : Except ε α → α
  | .ok a => a
  | .error _ => d

/-- Example cell system with a single cell onto which every position maps. -/
def cellsEx : CellSystem := { cellList := [0], positionToCell := fun _ => 0 }

/-- Example root unit number `n`: identifier `(n,)`, at the origin. -/
def unitEx (n : Nat) : Unit' := { identifier := [n], position := [0] }

/-- Example root branch wrapping `unitEx n`. -/
def rootEx (n : Nat) : Node := Node.mk (unitEx n) []

/-- Example occupancy as constructed: cell level 1, capacity 1, no charge. -/
def s0Ex : SingleActiveCellOccupancy :=
  okOr default (mkSingleActiveCellOccupancy cellsEx 1 1 none 1)

/-- Example extracted global state: three root units, all in the single cell. -/
def egsEx : List Node := [rootEx 0, rootEx 1, rootEx 2]

/-- Example occupancy after `initialize`: one occupant, two surplus entries. -/
def s1Ex : SingleActiveCellOccupancy := okOr default (s0Ex.initializeState egsEx)

/-- Example extracted active global state: unit `(0,)` is the active unit. -/
def bEx : List Node := [rootEx 0]

/-- Example occupancy after making the sole occupant of the cell active. -/
def s2Ex : SingleActiveCellOccupancy := okOr default (s1Ex.update bEx)

/-- Example relevant population: the identifiers of the three root units. -/
@[reducible] def popEx : Multiset Identifier :=
  relevantBag none (SingleActiveCellOccupancy.unitsOnCellLevel 1 egsEx)

/-- Example cell-veto handler without a charge. -/
def handlerEx : LeafUnitCellVetoEventHandler :=
  okOr default (mkLeafUnitCellVetoEventHandler 2 none)

/-- Example end-of-chain handler with chain time 0.7 whose previous candidate
time was 0.7. -/
def eocEx : EndOfChainEventHandler :=
  { chainTime := 7/10, eventTime := some (7/10) }

section AssocLemmas

theorem getA_mem {m : List (Cell × List Identifier)} {c : Cell} {l : List Identifier}
    (h : getA m c = some l) : (c, l) ∈ m := by
  induction m with
  | nil => simp [getA] at h
  | cons p rest ih =>
    obtain ⟨k, v⟩ := p
    rw [getA] at h
    by_cases hk : k = c
    · simp [hk] at h
      simp [hk, h]
    · simp [hk] at h
      exact List.mem_cons_of_mem _ (ih h)

theorem getA_setA_self (m : List (Cell × List Identifier)) (c : Cell) (v : List Identifier) :
    getA (setA m c v) c = some v := by
  induction m with
  | nil => simp [setA, getA]
  | cons p rest ih =>
    obtain ⟨k, w⟩ := p
    rw [setA]
    by_cases hk : k = c
    · simp [hk, getA]
    · simp [hk, getA, ih]

theorem listBag_setA {m : List (Cell × List Identifier)} {c : Cell} {l : List Identifier}
    (v : List Identifier) (h : getA m c = some l) :
    listBag (setA m c v) + (l : Multiset Identifier) =
      listBag m + (v : Multiset Identifier) := by
  induction m with
  | nil => simp [getA] at h
  | cons p rest ih =>
    obtain ⟨k, w⟩ := p
    rw [getA] at h
    by_cases hk : k = c
    · simp only [hk, if_pos rfl] at h
      obtain rfl : w = l := by simpa using h
      rw [setA, if_pos hk]
      simp [listBag]
      abel
    · simp only [hk, if_neg, not_false_iff] at h
      rw [setA, if_neg hk]
      simp only [listBag]
      have := ih h
      rw [add_assoc, add_assoc, this]

theorem listBag_append (m m' : List (Cell × List Identifier)) :
    listBag (m ++ m') = listBag m + listBag m' := by
  induction m with
  | nil => simp [listBag]
  | cons p rest ih =>
    obtain ⟨k, w⟩ := p
    show (w : Multiset Identifier) + listBag (rest ++ m') = _
    rw [ih, listBag, add_assoc]

theorem listBag_sdA (m : List (Cell × List Identifier)) (c : Cell) (x : Identifier) :
    listBag (sdA m c x) = listBag m + {x} := by
  cases h : getA m c with
  | none =>
    rw [sdA, h]
    rw [listBag_append]
    simp [listBag]
  | some l =>
    rw [sdA, h]
    have h2 := listBag_setA (l ++ [x]) h
    have h3 : (((l ++ [x] : List Identifier)) : Multiset Identifier) =
        (l : Multiset Identifier) + {x} := by
      rw [← Multiset.coe_add, ← Multiset.coe_singleton]
    rw [h3] at h2
    have h4 : listBag (setA m c (l ++ [x])) + (l : Multiset Identifier) =
        listBag m + {x} + (l : Multiset Identifier) := by
      rw [h2]; abel
    exact add_right_cancel h4

theorem listBag_delA {m : List (Cell × List Identifier)} {c : Cell}
    (h : getA m c = some []) : listBag (delA m c) = listBag m := by
  induction m with
  | nil => simp [getA] at h
  | cons p rest ih =>
    obtain ⟨k, w⟩ := p
    rw [getA] at h
    by_cases hk : k = c
    · simp only [hk, if_pos rfl] at h
      obtain rfl : w = [] := by simpa using h
      rw [delA, if_pos hk]
      simp [listBag]
    · simp only [hk, if_neg, not_false_iff] at h
      rw [delA, if_neg hk]
      simp only [listBag, ih h]

theorem mem_setA {m : List (Cell × List Identifier)} {c : Cell} {v : List Identifier}
    {p : Cell × List Identifier} (h : p ∈ setA m c v) : p = (c, v) ∨ p ∈ m := by
  induction m with
  | nil => simp [setA] at h; simp [h]
  | cons q rest ih =>
    obtain ⟨k, w⟩ := q
    rw [setA] at h
    by_cases hk : k = c
    · rw [if_pos hk] at h
      rcases List.mem_cons.mp h with h' | h'
      · exact Or.inl h'
      · exact Or.inr (List.mem_cons_of_mem _ h')
    · rw [if_neg hk] at h
      rcases List.mem_cons.mp h with h' | h'
      · exact Or.inr (by simp [h'])
      · rcases ih h' with h'' | h''
        · exact Or.inl h''
        · exact Or.inr (List.mem_cons_of_mem _ h'')

theorem mem_delA {m : List (Cell × List Identifier)} {c : Cell}
    {p : Cell × List Identifier} (h : p ∈ delA m c) : p ∈ m := by
  induction m with
  | nil => simp [delA] at h
  | cons q rest ih =>
    obtain ⟨k, w⟩ := q
    rw [delA] at h
    by_cases hk : k = c
    · rw [if_pos hk] at h
      exact List.mem_cons_of_mem (k, w) h
    · rw [if_neg hk] at h
      rcases List.mem_cons.mp h with h' | h'
      · simp [h']
      · exact List.mem_cons_of_mem _ (ih h')

theorem mem_listBag {m : List (Cell × List Identifier)} {x : Identifier}
    (h : ∃ p ∈ m, x ∈ p.2) : x ∈ listBag m := by
  induction m with
  | nil => simp at h
  | cons q rest ih =>
    obtain ⟨k, w⟩ := q
    obtain ⟨p, hp, hx⟩ := h
    rcases List.mem_cons.mp hp with h' | h'
    · subst h'
      simp only [listBag, Multiset.mem_add]
      exact Or.inl (by simpa using hx)
    · simp only [listBag, Multiset.mem_add]
      exact Or.inr (ih ⟨p, h', hx⟩)

end AssocLemmas

/-- The configuration fields of two occupancy states agree. -/
def configEq (t s : SingleActiveCellOccupancy) : Prop :=
  t.cells = s.cells ∧ t.cellLevel = s.cellLevel ∧
  t.maximumNumberOccupants = s.maximumNumberOccupants ∧
  t.numberOccupantsNotBounded = s.numberOccupantsNotBounded ∧
  t.charge = s.charge

theorem configEq_refl (s : SingleActiveCellOccupancy) : configEq s s :=
  ⟨rfl, rfl, rfl, rfl, rfl⟩

theorem configEq_trans {a b c : SingleActiveCellOccupancy}
    (h1 : configEq a b) (h2 : configEq b c) : configEq a c := by
  obtain ⟨e1, e2, e3, e4, e5⟩ := h1
  obtain ⟨f1, f2, f3, f4, f5⟩ := h2
  exact ⟨e1.trans f1, e2.trans f2, e3.trans f3, e4.trans f4, e5.trans f5⟩

open SingleActiveCellOccupancy in
/-- The maintained invariant of a cell-occupancy state tracking population
`pop`: the unbounded flag reflects the configured capacity, every occupant list
is within capacity when the capacity is bounded, the surplus map is empty when
the capacity is unbounded, and the identifiers in the occupant lists, the
surplus lists and the active slot together form exactly `pop`. -/
def SACOInv (pop : Multiset Identifier) (s : SingleActiveCellOccupancy) : Prop :=
  s.numberOccupantsNotBounded = decide (s.maximumNumberOccupants ≤ 0) ∧
  (s.numberOccupantsNotBounded = false →
    ∀ p ∈ s.occupants, (p.2.length : Int) ≤ s.maximumNumberOccupants) ∧
  (s.numberOccupantsNotBounded = true → s.surplus = []) ∧
  occBag s + surplusBag s + activeBag s = pop

theorem listBag_map_nil (cl : List Cell) :
    listBag (cl.map (fun c => (c, ([] : List Identifier)))) = 0 := by
  induction cl with
  | nil => rfl
  | cons c rest ih => simp [listBag, ih]

theorem mkSingleActiveCellOccupancy_spec {cells cellLevel maximumNumberOccupants charge
    numberOfNodeLevels s}
    (h : mkSingleActiveCellOccupancy cells cellLevel maximumNumberOccupants charge
      numberOfNodeLevels = .ok s) :
    SACOInv 0 s ∧ s.cells = cells ∧ s.cellLevel = cellLevel ∧
    s.maximumNumberOccupants = maximumNumberOccupants ∧ s.charge = charge ∧
    s.activeUnitIdentifier = none ∧ s.activeCell = none := by
  rw [mkSingleActiveCellOccupancy] at h
  split at h
  · exact absurd h (by simp)
  · obtain rfl : s = _ := by simpa using h.symm
    refine ⟨⟨rfl, ?_, ?_, ?_⟩, rfl, rfl, rfl, rfl, rfl, rfl⟩
    · intro _ p hp
      simp only [List.mem_map] at hp
      obtain ⟨c, _, rfl⟩ := hp
      simp only [List.length_nil, Nat.cast_zero]
      by_contra hlt
      push_neg at hlt
      simp at *
      omega
    · intro _; rfl
    · simp [SingleActiveCellOccupancy.occBag, SingleActiveCellOccupancy.surplusBag,
        SingleActiveCellOccupancy.activeBag, listBag_map_nil, listBag]

theorem exceptOk_inj {α ε : Type} {a b : α} (h : (Except.ok a : Except ε α) = Except.ok b) :
    a = b := by
  injection h

open SingleActiveCellOccupancy in
theorem insertUnitIdentifier_spec {pop s u t} (hI : SACOInv pop s)
    (h : insertUnitIdentifier s u = .ok t) :
    SACOInv (pop + (if isRelevantUnit s.charge u then {u.identifier} else 0)) t ∧
    configEq t s ∧ t.activeUnitIdentifier = s.activeUnitIdentifier ∧
    t.activeCell = s.activeCell := by
  obtain ⟨hcoh, hcap, hsur, hcons⟩ := hI
  simp only [insertUnitIdentifier] at h
  by_cases hrel : isRelevantUnit s.charge u
  · rw [if_pos hrel] at h
    simp only [if_pos hrel]
    cases hg : getA s.occupants (s.cells.positionToCell u.position) with
    | none => simp only [hg] at h; exact absurd h (by simp)
    | some l =>
      simp only [hg] at h
      by_cases hcond : (l.length : Int) < s.maximumNumberOccupants ∨
          s.numberOccupantsNotBounded = true
      · rw [if_pos hcond] at h
        obtain rfl := exceptOk_inj h
        refine ⟨⟨hcoh, ?_, hsur, ?_⟩, configEq_refl _, rfl, rfl⟩
        · intro hnb p hp
          rcases mem_setA hp with rfl | hp'
          · simp only [List.length_append, List.length_singleton, Nat.cast_add, Nat.cast_one]
            rcases hcond with hlt | hth
            · omega
            · rw [hnb] at hth; exact absurd hth (by simp)
          · exact hcap hnb p hp'
        · show listBag _ + surplusBag s + activeBag s = _
          have hb := listBag_setA (l ++ [u.identifier]) hg
          have h3 : (((l ++ [u.identifier] : List Identifier)) : Multiset Identifier) =
              (l : Multiset Identifier) + {u.identifier} := by
            rw [← Multiset.coe_add, ← Multiset.coe_singleton]
          rw [h3] at hb
          have hx : listBag (setA s.occupants (s.cells.positionToCell u.position)
              (l ++ [u.identifier])) = occBag s + {u.identifier} := by
            have h4 : listBag (setA s.occupants (s.cells.positionToCell u.position)
                (l ++ [u.identifier])) + (l : Multiset Identifier) =
                occBag s + {u.identifier} + (l : Multiset Identifier) := by
              rw [hb]; show _ = listBag s.occupants + _ + _; abel
            exact add_right_cancel h4
          rw [hx, ← hcons]
          abel
      · rw [if_neg hcond] at h
        obtain rfl := exceptOk_inj h
        push_neg at hcond
        refine ⟨⟨hcoh, hcap, ?_, ?_⟩, configEq_refl _, rfl, rfl⟩
        · intro hnb; exact absurd hnb (by simp [hcond.2])
        · show occBag s + listBag _ + activeBag s = _
          rw [show listBag (sdA s.surplus (s.cells.positionToCell u.position) u.identifier) =
              surplusBag s + {u.identifier} from listBag_sdA _ _ _, ← hcons]
          abel
  · rw [if_neg hrel] at h
    obtain rfl := exceptOk_inj h
    rw [if_neg hrel, add_zero]
    exact ⟨⟨hcoh, hcap, hsur, hcons⟩, configEq_refl _, rfl, rfl⟩

open SingleActiveCellOccupancy in
theorem foldlM_insert_spec {us : List Unit'} :
    ∀ {pop s t}, SACOInv pop s →
    us.foldlM insertUnitIdentifier s = Except.ok t →
    SACOInv (pop + relevantBag s.charge us) t ∧ configEq t s ∧
    t.activeUnitIdentifier = s.activeUnitIdentifier ∧ t.activeCell = s.activeCell := by
  induction us with
  | nil =>
    intro pop s t hI h
    have h' : (Except.ok s : Except PyError SingleActiveCellOccupancy) = .ok t := h
    obtain rfl := exceptOk_inj h'
    refine ⟨?_, configEq_refl s, rfl, rfl⟩
    have hz : relevantBag s.charge [] = 0 := rfl
    rw [hz, add_zero]
    exact hI
  | cons u us ih =>
    intro pop s t hI h
    rw [List.foldlM_cons] at h
    cases hu : insertUnitIdentifier s u with
    | error e =>
      rw [hu] at h
      have h' : (Except.error e : Except PyError SingleActiveCellOccupancy) = .ok t := h
      simp at h'
    | ok r =>
      rw [hu] at h
      have hr := insertUnitIdentifier_spec hI hu
      obtain ⟨hIr, hcfg, ha1, ha2⟩ := hr
      have h' : us.foldlM insertUnitIdentifier r = Except.ok t := h
      obtain ⟨hIt, hcfg', hb1, hb2⟩ := ih hIr h'
      refine ⟨?_, configEq_trans hcfg' hcfg, hb1.trans ha1, hb2.trans ha2⟩
      have hch : r.charge = s.charge := hcfg.2.2.2.2
      rw [hch] at hIt
      have : pop + (if isRelevantUnit s.charge u then {u.identifier} else 0) +
          relevantBag s.charge us = pop + relevantBag s.charge (u :: us) := by
        rw [relevantBag, relevantBag]
        by_cases hrel : isRelevantUnit s.charge u
        · simp only [hrel, if_pos, List.filter_cons_of_pos, List.map_cons]
          rw [← Multiset.cons_coe]
          have : ((u.identifier ::ₘ ((us.filter (fun v => isRelevantUnit s.charge v)).map
              Unit'.identifier : List Identifier)) : Multiset Identifier) =
              {u.identifier} + (((us.filter (fun v => isRelevantUnit s.charge v)).map
              Unit'.identifier : List Identifier) : Multiset Identifier) := by
            rw [← Multiset.singleton_add]
          rw [this]
          abel
        · simp only [hrel, Bool.false_eq_true, not_false_iff, List.filter_cons_of_neg]
          simp
      rw [← this]
      exact hIt

open SingleActiveCellOccupancy in
theorem initializeState_spec {pop s egs t} (hI : SACOInv pop s)
    (h : s.initializeState egs = .ok t) :
    SACOInv (pop + relevantBag s.charge (unitsOnCellLevel s.cellLevel egs)) t ∧
    configEq t s ∧ t.activeUnitIdentifier = s.activeUnitIdentifier ∧
    t.activeCell = s.activeCell :=
  foldlM_insert_spec hI h

open SingleActiveCellOccupancy in
theorem activeBag_eq_some {s : SingleActiveCellOccupancy} {i}
    (h : s.activeUnitIdentifier = some i) : activeBag s = {i} := by
  simp [SingleActiveCellOccupancy.activeBag, h]

open SingleActiveCellOccupancy in
theorem activeBag_eq_none {s : SingleActiveCellOccupancy}
    (h : s.activeUnitIdentifier = none) : activeBag s = 0 := by
  simp [SingleActiveCellOccupancy.activeBag, h]

open SingleActiveCellOccupancy in
theorem returnPreviousActive_spec {s t} (h : s.returnPreviousActive = .ok t) :
    configEq t s ∧ t.activeUnitIdentifier = s.activeUnitIdentifier ∧
    t.activeCell = s.activeCell ∧
    occBag t + surplusBag t = occBag s + surplusBag s + activeBag s ∧
    ((s.numberOccupantsNotBounded = false →
        ∀ p ∈ s.occupants, (p.2.length : Int) ≤ s.maximumNumberOccupants) →
      s.numberOccupantsNotBounded = false →
      ∀ p ∈ t.occupants, (p.2.length : Int) ≤ s.maximumNumberOccupants) ∧
    (s.numberOccupantsNotBounded = true → t.surplus = s.surplus) := by
  rw [returnPreviousActive] at h
  cases ha : s.activeUnitIdentifier with
  | none =>
    simp only [ha] at h
    obtain rfl := exceptOk_inj h
    refine ⟨configEq_refl s, ha, rfl, ?_, fun hc => hc, fun _ => rfl⟩
    rw [activeBag_eq_none ha, add_zero]
  | some prevId =>
    simp only [ha] at h
    cases hac : s.activeCell with
    | none => simp only [hac] at h; exact absurd h (by simp)
    | some prevCell =>
      simp only [hac] at h
      cases hg : getA s.occupants prevCell with
      | none => simp only [hg] at h; exact absurd h (by simp)
      | some occList =>
        simp only [hg] at h
        by_cases hcond : (occList.length : Int) < s.maximumNumberOccupants ∨
            s.numberOccupantsNotBounded = true
        · rw [if_pos hcond] at h
          obtain rfl := exceptOk_inj h
          refine ⟨⟨rfl, rfl, rfl, rfl, rfl⟩, rfl, rfl, ?_, ?_, fun _ => rfl⟩
          · rw [activeBag_eq_some ha]
            show listBag (setA s.occupants prevCell (occList ++ [prevId])) + surplusBag s = _
            have hb := listBag_setA (occList ++ [prevId]) hg
            have h3 : (((occList ++ [prevId] : List Identifier)) : Multiset Identifier) =
                (occList : Multiset Identifier) + {prevId} := by
              rw [← Multiset.coe_add, ← Multiset.coe_singleton]
            rw [h3] at hb
            have hx : listBag (setA s.occupants prevCell (occList ++ [prevId])) =
                occBag s + {prevId} := by
              have h4 : listBag (setA s.occupants prevCell (occList ++ [prevId])) +
                  (occList : Multiset Identifier) =
                  occBag s + {prevId} + (occList : Multiset Identifier) := by
                rw [hb]; show _ = listBag s.occupants + _ + _; abel
              exact add_right_cancel h4
            rw [hx]
            show _ = occBag s + surplusBag s + {prevId}
            abel
          · intro hcap hnb p hp
            rcases mem_setA hp with rfl | hp'
            · simp only [List.length_append, List.length_singleton, Nat.cast_add, Nat.cast_one]
              rcases hcond with hlt | hth
              · omega
              · rw [hnb] at hth; exact absurd hth (by simp)
            · exact hcap hnb p hp'
        · rw [if_neg hcond] at h
          obtain rfl := exceptOk_inj h
          push_neg at hcond
          refine ⟨⟨rfl, rfl, rfl, rfl, rfl⟩, rfl, rfl, ?_, fun hcap hnb => hcap hnb, ?_⟩
          · rw [activeBag_eq_some ha]
            show occBag s + listBag (sdA s.surplus prevCell prevId) = _
            rw [listBag_sdA]
            show occBag s + (surplusBag s + {prevId}) = occBag s + surplusBag s + {prevId}
            abel
          · intro hnb
            exact absurd hnb hcond.2


theorem coe_eq_cons_removeFirst {l : List Identifier} {x : Identifier} (h : x ∈ l) :
    (l : Multiset Identifier) = {x} + ((removeFirst l x : List Identifier) : Multiset Identifier) := by
  induction l with
  | nil => simp at h
  | cons y ys ih =>
    rw [removeFirst]
    by_cases hxy : y = x
    · subst hxy
      rw [if_pos rfl, ← Multiset.cons_coe, ← Multiset.singleton_add]
    · rw [if_neg hxy, ← Multiset.cons_coe, ← Multiset.cons_coe,
        ih (by rcases List.mem_cons.mp h with h' | h'; exact absurd h'.symm hxy; exact h'),
        ← Multiset.singleton_add, ← Multiset.singleton_add]
      abel

theorem removeFirst_length_le (l : List Identifier) (x : Identifier) :
    (removeFirst l x).length ≤ l.length := by
  induction l with
  | nil => simp [removeFirst]
  | cons y ys ih =>
    rw [removeFirst]
    by_cases hxy : y = x
    · rw [if_pos hxy]; simp
    · rw [if_neg hxy]; simp only [List.length_cons]; omega

open SingleActiveCellOccupancy in
theorem trackNewActive_spec {s : SingleActiveCellOccupancy} {u t}
    (h : s.trackNewActive u = .ok t) :
    configEq t s ∧ t.activeUnitIdentifier = some u.identifier ∧
    t.activeCell = some (s.cells.positionToCell u.position) ∧
    occBag t + surplusBag t + {u.identifier} = occBag s + surplusBag s ∧
    ((∀ p ∈ s.occupants, (p.2.length : Int) ≤ s.maximumNumberOccupants) →
      ∀ p ∈ t.occupants, (p.2.length : Int) ≤ s.maximumNumberOccupants) ∧
    (s.surplus = [] → t.surplus = []) := by
  simp only [trackNewActive] at h
  cases hg : getA s.occupants (s.cells.positionToCell u.position) with
  | none => simp only [hg] at h; exact absurd h (by simp)
  | some occList =>
    simp only [hg] at h
    by_cases hmem : u.identifier ∈ occList
    · rw [if_pos hmem] at h
      have hocc : listBag (setA s.occupants (s.cells.positionToCell u.position)
          (removeFirst occList u.identifier)) + {u.identifier} = occBag s := by
        have hb := listBag_setA (removeFirst occList u.identifier) hg
        rw [coe_eq_cons_removeFirst hmem] at hb
        have h4 : listBag (setA s.occupants (s.cells.positionToCell u.position)
            (removeFirst occList u.identifier)) + {u.identifier} +
            ((removeFirst occList u.identifier : List Identifier) : Multiset Identifier) =
            occBag s + ((removeFirst occList u.identifier : List Identifier) : Multiset Identifier) := by
          rw [show listBag (setA s.occupants (s.cells.positionToCell u.position)
              (removeFirst occList u.identifier)) + {u.identifier} +
              ((removeFirst occList u.identifier : List Identifier) : Multiset Identifier) =
              listBag (setA s.occupants (s.cells.positionToCell u.position)
              (removeFirst occList u.identifier)) +
              ({u.identifier} + ((removeFirst occList u.identifier : List Identifier) :
                Multiset Identifier)) from by abel]
          rw [hb]
          rfl
        exact add_right_cancel h4
      have hcap' : (∀ p ∈ s.occupants, (p.2.length : Int) ≤ s.maximumNumberOccupants) →
          ∀ p ∈ setA s.occupants (s.cells.positionToCell u.position)
            (removeFirst occList u.identifier), (p.2.length : Int) ≤ s.maximumNumberOccupants := by
        intro hcap p hp
        rcases mem_setA hp with rfl | hp'
        · have hle : (removeFirst occList u.identifier).length ≤ occList.length :=
            removeFirst_length_le _ _
          have := hcap _ (getA_mem hg)
          simp only at this ⊢
          omega
        · exact hcap p hp'
      cases hgs : getA s.surplus (s.cells.positionToCell u.position) with
      | none =>
        simp only [hgs] at h
        obtain rfl := exceptOk_inj h
        refine ⟨⟨rfl, rfl, rfl, rfl, rfl⟩, rfl, rfl, ?_, hcap', fun hse => hse⟩
        show listBag (setA s.occupants (s.cells.positionToCell u.position)
          (removeFirst occList u.identifier)) + surplusBag s + {u.identifier} = _
        rw [← hocc]
        abel
      | some surList =>
        cases surList with
        | nil => simp only [hgs] at h; exact absurd h (by simp)
        | cons x xs =>
          simp only [hgs] at h
          obtain rfl := exceptOk_inj h
          refine ⟨⟨rfl, rfl, rfl, rfl, rfl⟩, rfl, rfl, ?_, hcap', fun hse => hse⟩
          show listBag (setA s.occupants (s.cells.positionToCell u.position)
            (removeFirst occList u.identifier)) + surplusBag s + {u.identifier} = _
          rw [← hocc]
          abel
    · rw [if_neg hmem] at h
      cases hgs : getA s.surplus (s.cells.positionToCell u.position) with
      | none => simp only [hgs] at h; exact absurd h (by simp)
      | some surList =>
        simp only [hgs] at h
        by_cases hsm : u.identifier ∈ surList
        · rw [if_pos hsm] at h
          have hsur : listBag (setA s.surplus (s.cells.positionToCell u.position)
              (removeFirst surList u.identifier)) + {u.identifier} = surplusBag s := by
            have hb := listBag_setA (removeFirst surList u.identifier) hgs
            rw [coe_eq_cons_removeFirst hsm] at hb
            have h4 : listBag (setA s.surplus (s.cells.positionToCell u.position)
                (removeFirst surList u.identifier)) + {u.identifier} +
                ((removeFirst surList u.identifier : List Identifier) : Multiset Identifier) =
                surplusBag s + ((removeFirst surList u.identifier : List Identifier) :
                  Multiset Identifier) := by
              rw [show listBag (setA s.surplus (s.cells.positionToCell u.position)
                  (removeFirst surList u.identifier)) + {u.identifier} +
                  ((removeFirst surList u.identifier : List Identifier) : Multiset Identifier) =
                  listBag (setA s.surplus (s.cells.positionToCell u.position)
                  (removeFirst surList u.identifier)) +
                  ({u.identifier} + ((removeFirst surList u.identifier : List Identifier) :
                    Multiset Identifier)) from by abel]
              rw [hb]
              rfl
            exact add_right_cancel h4
          have hne : ¬ s.surplus = [] := by
            intro hse
            rw [hse] at hgs
            simp [getA] at hgs
          cases he : removeFirst surList u.identifier with
          | nil =>
            rw [he] at hsur
            simp only [he, getA_setA_self] at h
            obtain rfl := exceptOk_inj h
            refine ⟨⟨rfl, rfl, rfl, rfl, rfl⟩, rfl, rfl, ?_, fun hcap => hcap, fun hse =>
              absurd hse hne⟩
            show occBag s + listBag (delA (setA s.surplus (s.cells.positionToCell u.position)
              []) (s.cells.positionToCell u.position)) + {u.identifier} = _
            rw [listBag_delA (getA_setA_self s.surplus (s.cells.positionToCell u.position) [])]
            rw [show occBag s + listBag (setA s.surplus (s.cells.positionToCell u.position) []) +
                {u.identifier} = occBag s + (listBag (setA s.surplus
                (s.cells.positionToCell u.position) []) + {u.identifier}) from by abel]
            rw [hsur]
          | cons y ys =>
            rw [he] at hsur
            simp only [he, getA_setA_self] at h
            obtain rfl := exceptOk_inj h
            refine ⟨⟨rfl, rfl, rfl, rfl, rfl⟩, rfl, rfl, ?_, fun hcap => hcap, fun hse =>
              absurd hse hne⟩
            show occBag s + listBag (setA s.surplus (s.cells.positionToCell u.position)
              (y :: ys)) + {u.identifier} = _
            rw [show occBag s + listBag (setA s.surplus (s.cells.positionToCell u.position)
                (y :: ys)) + {u.identifier} = occBag s + (listBag (setA s.surplus
                (s.cells.positionToCell u.position) (y :: ys)) + {u.identifier}) from by abel]
            rw [hsur]
        · rw [if_neg hsm] at h
          exact absurd h (by simp)

theorem configEq_coherence {t s : SingleActiveCellOccupancy} (hc : configEq t s)
    (h : s.numberOccupantsNotBounded = decide (s.maximumNumberOccupants ≤ 0)) :
    t.numberOccupantsNotBounded = decide (t.maximumNumberOccupants ≤ 0) := by
  rw [hc.2.2.2.1, hc.2.2.1, h]

open SingleActiveCellOccupancy in
theorem update_spec {pop : Multiset Identifier} {s : SingleActiveCellOccupancy} {b t}
    (hI : SACOInv pop s) (h : s.update b = .ok t) : SACOInv pop t ∧ configEq t s := by
  obtain ⟨hcoh, hcap, hsur, hcons⟩ := hI
  rw [update] at h
  cases hus : unitsOnCellLevel s.cellLevel b with
  | nil => simp only [hus] at h; exact absurd h (by simp)
  | cons u us =>
    cases us with
    | cons v vs => simp only [hus] at h; exact absurd h (by simp)
    | nil =>
      simp only [hus] at h
      by_cases hid : some u.identifier ≠ s.activeUnitIdentifier
      · rw [if_pos hid] at h
        cases hr : s.returnPreviousActive with
        | error e => simp only [hr] at h; exact absurd h (by simp)
        | ok r =>
          simp only [hr] at h
          obtain ⟨hcfgR, haR, hacR, hbagR, hcapR, hsurR⟩ := returnPreviousActive_spec hr
          by_cases hrel : isRelevantUnit r.charge u
          · rw [if_pos hrel] at h
            obtain ⟨hcfgT, haT, hacT, hbagT, hcapT, hsurT⟩ := trackNewActive_spec h
            refine ⟨⟨configEq_coherence (configEq_trans hcfgT hcfgR) hcoh, ?_, ?_, ?_⟩,
              configEq_trans hcfgT hcfgR⟩
            · intro hnb p hp
              have hnbs : s.numberOccupantsNotBounded = false := by
                rw [← hcfgR.2.2.2.1, ← hcfgT.2.2.2.1]; exact hnb
              have hcapr : ∀ q ∈ r.occupants, (q.2.length : Int) ≤ r.maximumNumberOccupants := by
                rw [hcfgR.2.2.1]
                exact hcapR hcap hnbs
              rw [hcfgT.2.2.1]
              exact hcapT hcapr p hp
            · intro hnb
              have hnbs : s.numberOccupantsNotBounded = true := by
                rw [← hcfgR.2.2.2.1, ← hcfgT.2.2.2.1]; exact hnb
              exact hsurT (by rw [hsurR hnbs]; exact hsur hnbs)
            · rw [activeBag_eq_some haT, hbagT, hbagR, hcons]
          · rw [if_neg hrel] at h
            obtain rfl := exceptOk_inj h
            refine ⟨⟨?_, ?_, ?_, ?_⟩, hcfgR⟩
            · exact configEq_coherence hcfgR hcoh
            · intro hnb p hp
              have hnbs : s.numberOccupantsNotBounded = false := by
                rw [← hcfgR.2.2.2.1]; exact hnb
              have := hcapR hcap hnbs p hp
              rw [hcfgR.2.2.1]
              exact this
            · intro hnb
              have hnbs : s.numberOccupantsNotBounded = true := by
                rw [← hcfgR.2.2.2.1]; exact hnb
              show r.surplus = []
              rw [hsurR hnbs]
              exact hsur hnbs
            · show occBag r + surplusBag r + (0 : Multiset Identifier) = pop
              rw [add_zero, hbagR, hcons]
      · rw [if_neg hid] at h
        obtain rfl := exceptOk_inj h
        exact ⟨⟨hcoh, hcap, hsur, hcons⟩, configEq_refl _⟩

/-- Reachable states of a `SingleActiveCellOccupancy` tracking population `pop`:
a state obtained by construction followed by `initialize` on an extracted
global state whose relevant identifiers form `pop`, followed by any sequence of
successful `update` calls. -/
inductive Reachable : Multiset Identifier → SingleActiveCellOccupancy → Prop where
  | start {cells cellLevel maximumNumberOccupants charge numberOfNodeLevels egs s0 s1} :
      mkSingleActiveCellOccupancy cells cellLevel maximumNumberOccupants charge
        numberOfNodeLevels = .ok s0 →
      s0.initializeState egs = .ok s1 →
      Reachable (relevantBag charge (SingleActiveCellOccupancy.unitsOnCellLevel cellLevel egs))
        s1
  | step {pop s b s'} : Reachable pop s → s.update b = .ok s' → Reachable pop s'

theorem reachable_inv {pop s} (h : Reachable pop s) : SACOInv pop s := by
  induction h with
  | start hmk hinit =>
    obtain ⟨hinv0, _, hl, _, hch, _, _⟩ := mkSingleActiveCellOccupancy_spec hmk
    obtain ⟨hinv1, _, _, _⟩ := initializeState_spec hinv0 hinit
    rw [hch, hl, zero_add] at hinv1
    exact hinv1
  | step _ hupd ih => exact (update_spec ih hupd).1

open SingleActiveCellOccupancy in
theorem returnPreviousActive_no_assertion (s : SingleActiveCellOccupancy) :
    s.returnPreviousActive ≠ Except.error PyError.assertionError := by
  intro h
  rw [returnPreviousActive] at h
  cases ha : s.activeUnitIdentifier with
  | none => simp only [ha] at h; exact absurd h (by simp)
  | some prevId =>
    simp only [ha] at h
    cases hac : s.activeCell with
    | none => simp only [hac] at h; exact absurd h (by simp)
    | some prevCell =>
      simp only [hac] at h
      cases hg : getA s.occupants prevCell with
      | none => simp only [hg] at h; exact absurd h (by simp)
      | some occList =>
        simp only [hg] at h
        split at h <;> exact absurd h (by simp)

open SingleActiveCellOccupancy in
theorem trackNewActive_no_assertion (s : SingleActiveCellOccupancy) (u : Unit') :
    s.trackNewActive u ≠ Except.error PyError.assertionError := by
  intro h
  simp only [trackNewActive] at h
  cases hg : getA s.occupants (s.cells.positionToCell u.position) with
  | none => simp only [hg] at h; exact absurd h (by simp)
  | some occList =>
    simp only [hg] at h
    by_cases hmem : u.identifier ∈ occList
    · rw [if_pos hmem] at h
      cases hgs : getA s.surplus (s.cells.positionToCell u.position) with
      | none => simp only [hgs] at h; exact absurd h (by simp)
      | some surList =>
        cases surList with
        | nil => simp only [hgs] at h; exact absurd h (by simp)
        | cons x xs => simp only [hgs] at h; exact absurd h (by simp)
    · rw [if_neg hmem] at h
      cases hgs : getA s.surplus (s.cells.positionToCell u.position) with
      | none => simp only [hgs] at h; exact absurd h (by simp)
      | some surList =>
        simp only [hgs] at h
        by_cases hsm : u.identifier ∈ surList
        · rw [if_pos hsm] at h
          cases he : removeFirst surList u.identifier with
          | nil => simp only [he, getA_setA_self] at h; exact absurd h (by simp)
          | cons y ys => simp only [he, getA_setA_self] at h; exact absurd h (by simp)
        · rw [if_neg hsm] at h
          exact absurd h (by simp)

open SingleActiveCellOccupancy in
theorem getItem_eq_some {s : SingleActiveCellOccupancy} {c l} (h : s.getItem c = .ok l) :
    getA s.occupants c = some l := by
  rw [getItem] at h
  cases hg : getA s.occupants c with
  | none => simp only [hg] at h; exact absurd h (by simp)
  | some w =>
    simp only [hg] at h
    rw [exceptOk_inj h]

open SingleActiveCellOccupancy in
theorem mem_yieldSurplus_bag {s : SingleActiveCellOccupancy} {i}
    (h : i ∈ s.yieldSurplus) : i ∈ surplusBag s := by
  rw [yieldSurplus, List.mem_flatten] at h
  obtain ⟨l, hl, hil⟩ := h
  rw [List.mem_map] at hl
  obtain ⟨p, hp, rfl⟩ := hl
  exact mem_listBag ⟨p, hp, hil⟩


section ClaimTheorems

open SingleActiveCellOccupancy

/-- C1 (evidence of the code bug): in the scenario of the claim — capacity 1,
one cell holding occupant `(0,)` plus surplus entries `(1,)`, `(2,)` — making
the occupant active removes it from `occupants`, but, contrary to the claim and
to the comment in the source, no surplus identifier is promoted into the
vacated occupant slot: the guard `if not self._surplus.get(cell, True)` is
inverted, so the occupant list stays empty and the surplus list keeps both
entries. -/
theorem c1_no_surplus_promotion :
    s1Ex.update bEx = .ok s2Ex ∧
    s1Ex.maximumNumberOccupants = 1 ∧
    getA s1Ex.occupants 0 = some [[0]] ∧
    getA s1Ex.surplus 0 = some [[1], [2]] ∧
    s2Ex.activeUnitIdentifier = some [0] ∧
    getA s2Ex.occupants 0 = some [] ∧
    getA s2Ex.surplus 0 = some [[1], [2]] := by
  refine ⟨rfl, rfl, ?_, ?_, rfl, ?_, ?_⟩ <;> decide

/-- C2: in every reachable state of a `SingleActiveCellOccupancy` (after
`initialize` on a global state with relevant population `pop` and any sequence
of successful `update` calls), every occupant list has length at most the
maximum number of occupants when that maximum is positive, the multiset union
of the occupant lists, the surplus lists and the tracked active identifier
equals `pop`, and with a maximum of at most zero the surplus map stays empty. -/
theorem c2_capacity_and_conservation {pop : Multiset Identifier}
    {s : SingleActiveCellOccupancy} (h : Reachable pop s) :
    (0 < s.maximumNumberOccupants →
      ∀ p ∈ s.occupants, (p.2.length : Int) ≤ s.maximumNumberOccupants) ∧
    occBag s + surplusBag s + activeBag s = pop ∧
    (s.maximumNumberOccupants ≤ 0 → s.surplus = []) := by
  obtain ⟨hcoh, hcap, hsur, hcons⟩ := reachable_inv h
  refine ⟨?_, hcons, ?_⟩
  · intro hpos
    apply hcap
    rw [hcoh]
    simp only [decide_eq_false_iff_not, not_le]
    exact hpos
  · intro hle
    apply hsur
    rw [hcoh]
    simp only [decide_eq_true_eq]
    exact hle

/-- Witness for C2 at the concrete three-unit, capacity-one example state. -/
theorem c2_capacity_and_conservation_witness :
    (0 < s1Ex.maximumNumberOccupants →
      ∀ p ∈ s1Ex.occupants, (p.2.length : Int) ≤ s1Ex.maximumNumberOccupants) ∧
    occBag s1Ex + surplusBag s1Ex + activeBag s1Ex = popEx ∧
    (s1Ex.maximumNumberOccupants ≤ 0 → s1Ex.surplus = []) :=
  c2_capacity_and_conservation
    (@Reachable.start cellsEx 1 1 none 1 egsEx s0Ex s1Ex rfl rfl)

/-- C3: in every reachable state whose tracked population has pairwise distinct
identifiers, the tracked active identifier appears in no occupant list and in
no surplus list; consequently the `__getitem__` lookup never returns it for
any cell, and `yield_surplus` never yields it. -/
theorem c3_active_identifier_excluded {pop : Multiset Identifier}
    {s : SingleActiveCellOccupancy} {i : Identifier} (h : Reachable pop s)
    (hnd : pop.Nodup) (ha : s.activeUnitIdentifier = some i) :
    i ∉ occBag s ∧ i ∉ surplusBag s ∧
    (∀ c l, s.getItem c = .ok l → i ∉ l) ∧ i ∉ s.yieldSurplus := by
  obtain ⟨_, _, _, hcons⟩ := reachable_inv h
  have h1 : pop.count i ≤ 1 := Multiset.nodup_iff_count_le_one.mp hnd i
  have h2 : (occBag s).count i + (surplusBag s).count i + (activeBag s).count i =
      pop.count i := by
    rw [← Multiset.count_add, ← Multiset.count_add, hcons]
  rw [activeBag_eq_some ha, Multiset.count_singleton_self] at h2
  have hocc : i ∉ occBag s := by
    rw [← Multiset.count_eq_zero]
    omega
  have hsurm : i ∉ surplusBag s := by
    rw [← Multiset.count_eq_zero]
    omega
  refine ⟨hocc, hsurm, ?_, ?_⟩
  · intro c l hl hil
    exact hocc (mem_listBag ⟨(c, l), getA_mem (getItem_eq_some hl), hil⟩)
  · intro hys
    exact hsurm (mem_yieldSurplus_bag hys)

/-- Witness for C3 at the concrete example state after one update, where
`(0,)` is the tracked active identifier. -/
theorem c3_active_identifier_excluded_witness :
    ([0] : Identifier) ∉ occBag s2Ex ∧ ([0] : Identifier) ∉ surplusBag s2Ex ∧
    (∀ c l, s2Ex.getItem c = .ok l → ([0] : Identifier) ∉ l) ∧
    ([0] : Identifier) ∉ s2Ex.yieldSurplus :=
  c3_active_identifier_excluded
    (@Reachable.step popEx s1Ex bEx s2Ex
      (@Reachable.start cellsEx 1 1 none 1 egsEx s0Ex s1Ex rfl rfl) rfl)
    (Multiset.coe_nodup.mpr (by decide)) rfl

/-- C4: `update` fails with an assertion error exactly when the extracted
active global state does not contain exactly one unit on the cell level; with
exactly one such unit the assertion passes and no assertion error arises. -/
theorem c4_update_asserts_single_active_unit (s : SingleActiveCellOccupancy)
    (b : List Node) :
    ((unitsOnCellLevel s.cellLevel b).length ≠ 1 →
      s.update b = .error .assertionError) ∧
    ((unitsOnCellLevel s.cellLevel b).length = 1 →
      s.update b ≠ .error .assertionError) := by
  constructor
  · intro hne
    rw [update]
    cases hus : unitsOnCellLevel s.cellLevel b with
    | nil => rfl
    | cons u us =>
      cases us with
      | nil => rw [hus] at hne; simp at hne
      | cons v vs => rfl
  · intro h1
    obtain ⟨u, hu⟩ : ∃ u, unitsOnCellLevel s.cellLevel b = [u] := by
      cases hus : unitsOnCellLevel s.cellLevel b with
      | nil => rw [hus] at h1; simp at h1
      | cons u us =>
        cases us with
        | nil => exact ⟨u, rfl⟩
        | cons v vs => rw [hus] at h1; simp at h1
    simp only [update, hu]
    intro hc
    by_cases hid : some u.identifier ≠ s.activeUnitIdentifier
    · rw [if_pos hid] at hc
      have hc' := hc
      cases hr : s.returnPreviousActive with
      | error e =>
        rw [hr] at hc'
        have he : e = PyError.assertionError := by
          have h2 : (Except.error e : Except PyError SingleActiveCellOccupancy) =
              .error .assertionError := hc'
          injection h2
        rw [he] at hr
        exact returnPreviousActive_no_assertion s hr
      | ok r =>
        rw [hr] at hc'
        by_cases hrel : isRelevantUnit r.charge u
        · have h3 : r.trackNewActive u = Except.error .assertionError := by
            have h0 : (if isRelevantUnit r.charge u = true then r.trackNewActive u
                else Except.ok { r with activeUnitIdentifier := none, activeCell := none }) =
                Except.error PyError.assertionError := hc'
            rwa [if_pos hrel] at h0
          exact trackNewActive_no_assertion r u h3
        · have h0 : (if isRelevantUnit r.charge u = true then r.trackNewActive u
              else Except.ok { r with activeUnitIdentifier := none, activeCell := none }) =
              Except.error PyError.assertionError := hc'
          rw [if_neg hrel] at h0
          exact absurd h0 (by simp)
    · have h0 := hc
      rw [if_neg hid] at h0
      exact absurd h0 (by simp)

/-- Witness for C4: with zero active units on the cell level the concrete
update asserts, with exactly one it does not. -/
theorem c4_update_asserts_single_active_unit_witness :
    s1Ex.update [] = .error .assertionError ∧
    s1Ex.update bEx ≠ .error .assertionError :=
  ⟨(c4_update_asserts_single_active_unit s1Ex []).1 (by decide),
   (c4_update_asserts_single_active_unit s1Ex bEx).2 (by decide)⟩

/-- C9: when the new active unit carries the identifier already tracked as
active, `update` succeeds and only recomputes the active cell from the unit's
position; the occupant map, the surplus map and the tracked active identifier
are unchanged. -/
theorem c9_unchanged_identifier_frame {s : SingleActiveCellOccupancy}
    {b : List Node} {u : Unit'}
    (h1 : unitsOnCellLevel s.cellLevel b = [u])
    (h2 : s.activeUnitIdentifier = some u.identifier) :
    ∃ s', s.update b = .ok s' ∧ s'.occupants = s.occupants ∧ s'.surplus = s.surplus ∧
      s'.activeUnitIdentifier = s.activeUnitIdentifier ∧
      s'.activeCell = some (s.cells.positionToCell u.position) := by
  refine ⟨{ s with activeCell := some (s.cells.positionToCell u.position) },
    ?_, rfl, rfl, rfl, rfl⟩
  simp only [update, h1]
  have hnid : ¬ some u.identifier ≠ s.activeUnitIdentifier := fun hn => hn h2.symm
  rw [if_neg hnid]

/-- Witness for C9 at the concrete example state after one update, where the
active unit `(0,)` is supplied again. -/
theorem c9_unchanged_identifier_frame_witness :
    ∃ s', s2Ex.update bEx = .ok s' ∧ s'.occupants = s2Ex.occupants ∧
      s'.surplus = s2Ex.surplus ∧
      s'.activeUnitIdentifier = s2Ex.activeUnitIdentifier ∧
      s'.activeCell = some (s2Ex.cells.positionToCell (unitEx 0).position) :=
  c9_unchanged_identifier_frame rfl rfl

/-- C10: directly after construction and `initialize`, and before any `update`
call, no active unit is tracked: the active identifier and the active cell are
absent, `yield_active_cells` yields nothing, and the occupant and surplus lists
together hold exactly the identifiers of all relevant units on the cell level
of the initializing global state. -/
theorem c10_initialize_no_active_unit {cells : CellSystem} {cellLevel : Nat}
    {maximumNumberOccupants : Int} {charge : Option String} {numberOfNodeLevels : Nat}
    {egs : List Node} {s0 s1 : SingleActiveCellOccupancy}
    (h0 : mkSingleActiveCellOccupancy cells cellLevel maximumNumberOccupants charge
      numberOfNodeLevels = .ok s0)
    (h1 : s0.initializeState egs = .ok s1) :
    s1.activeUnitIdentifier = none ∧ s1.activeCell = none ∧
    s1.yieldActiveCells = [] ∧
    occBag s1 + surplusBag s1 = relevantBag charge (unitsOnCellLevel cellLevel egs) := by
  obtain ⟨hinv0, _, hl, _, hch, ha, hac⟩ := mkSingleActiveCellOccupancy_spec h0
  obtain ⟨hinv1, _, ha1, hac1⟩ := initializeState_spec hinv0 h1
  have hA : s1.activeUnitIdentifier = none := ha1.trans ha
  have hC : s1.activeCell = none := hac1.trans hac
  refine ⟨hA, hC, ?_, ?_⟩
  · rw [yieldActiveCells, hC]
  · have hcons := hinv1.2.2.2
    rw [hch, hl, zero_add, activeBag_eq_none hA, add_zero] at hcons
    exact hcons

/-- Witness for C10 at the concrete three-unit example initialization. -/
theorem c10_initialize_no_active_unit_witness :
    s1Ex.activeUnitIdentifier = none ∧ s1Ex.activeCell = none ∧
    s1Ex.yieldActiveCells = [] ∧
    occBag s1Ex + surplusBag s1Ex =
      relevantBag none (unitsOnCellLevel 1 egsEx) :=
  @c10_initialize_no_active_unit cellsEx 1 1 none 1 egsEx s0Ex s1Ex rfl rfl

/-- C5: `send_out_state` of the leaf-unit cell-veto handler, given `None` (the
sampled target cell holds no occupant), returns exactly the stored time-sliced
active branch as an ordinary result, not an error, and leaves the handler's
recorded active identifier and active cell untouched. -/
theorem c5_none_confirmation_returns_stored_state
    (calcOut : LeafUnitCellVetoEventHandler → List ℚ → List ℚ →
      LeafUnitCellVetoEventHandler)
    (separationVector : List ℚ → List ℚ → List ℚ)
    (h : LeafUnitCellVetoEventHandler) :
    h.sendOutState calcOut separationVector none = .ok (h, h.state) ∧
    (∀ h' out, h.sendOutState calcOut separationVector none = .ok (h', out) →
      out = h.state ∧ h'.activeIdentifier = h.activeIdentifier ∧
      h'.activeCellIndex = h.activeCellIndex) := by
  refine ⟨rfl, ?_⟩
  intro h' out hok
  have h2 := exceptOk_inj hok
  have h3 : h = h' := congrArg Prod.fst h2
  have h4 : h.state = out := congrArg Prod.snd h2
  subst h3
  exact ⟨h4.symm, rfl, rfl⟩

/-- Witness for C5 at a concrete handler with trivial collaborators. -/
theorem c5_none_confirmation_witness :
    handlerEx.sendOutState (fun g _ _ => g) (fun a _ => a) none =
      .ok (handlerEx, handlerEx.state) :=
  (c5_none_confirmation_returns_stored_state (fun g _ _ => g) (fun a _ => a) handlerEx).1

/-- C6: constructing the final-time end-of-run handler with end-of-run time
-1.0 (or any time not greater than zero) raises a configuration error;
constructed with end-of-run time 1.0, every `send_event_time` call returns 1.0
unchanged, independent of any active unit's time stamp and velocity, since the
method reads only the stored time. -/
theorem c6_final_time_end_of_run :
    (∀ oh, mkFinalTimeEndOfRunEventHandler (-1) oh = .error .endOfRunTimeNotPositive) ∧
    (∀ (t : ℚ) oh, t ≤ 0 →
      mkFinalTimeEndOfRunEventHandler t oh = .error .endOfRunTimeNotPositive) ∧
    (∀ oh h, mkFinalTimeEndOfRunEventHandler 1 oh = .ok h →
      ∀ _u : Unit', h.sendEventTime = 1) := by
  refine ⟨?_, ?_, ?_⟩
  · intro oh
    rw [mkFinalTimeEndOfRunEventHandler, if_pos (by norm_num)]
  · intro t oh ht
    rw [mkFinalTimeEndOfRunEventHandler, if_pos (not_lt.mpr ht)]
  · intro oh h hok _u
    rw [mkFinalTimeEndOfRunEventHandler, if_neg (by norm_num)] at hok
    obtain rfl := exceptOk_inj hok
    rfl

/-- Witness for C6: the scenario of the claim at concrete times. -/
theorem c6_final_time_end_of_run_witness :
    mkFinalTimeEndOfRunEventHandler (-1) none = .error .endOfRunTimeNotPositive ∧
    FinalTimeEndOfRunEventHandler.sendEventTime
      { outputHandler := none, eventTime := 1 } = 1 :=
  ⟨c6_final_time_end_of_run.1 none,
   c6_final_time_end_of_run.2.2 none { outputHandler := none, eventTime := 1 }
     (by rw [mkFinalTimeEndOfRunEventHandler, if_neg (by norm_num)])
     { identifier := [0], position := [0], velocity := some [1, 0, 0],
       timeStamp := some (2/5), charge := [] }⟩

/-- C7: requesting a charge filter when the tracked cell level stores composite
point objects raises a configuration error at construction of the occupancy,
and a cell-veto handler charge whose potential does not expect exactly two
charge arguments raises a configuration error at construction of the handler;
with no charge neither constructor raises. -/
theorem c7_charge_configuration_errors :
    (∀ cells cellLevel maxOcc ch nlev, cellLevel < nlev →
      mkSingleActiveCellOccupancy cells cellLevel maxOcc (some ch) nlev =
        .error .chargeWithCompositeCellLevel) ∧
    (∀ n ch, n ≠ 2 →
      mkLeafUnitCellVetoEventHandler n (some ch) = .error .chargeArgumentCount) ∧
    (∀ cells cellLevel maxOcc nlev, ∃ s,
      mkSingleActiveCellOccupancy cells cellLevel maxOcc none nlev = .ok s) ∧
    (∀ n, ∃ g, mkLeafUnitCellVetoEventHandler n none = .ok g) := by
  refine ⟨?_, ?_, ?_, ?_⟩
  · intro cells cl m ch nlev hlt
    rw [mkSingleActiveCellOccupancy, if_pos ⟨hlt, by simp⟩]
  · intro n ch hn
    simp only [mkLeafUnitCellVetoEventHandler]
    rw [if_neg hn]
  · intro cells cl m nlev
    exact ⟨_, by rw [mkSingleActiveCellOccupancy, if_neg (by simp)]⟩
  · intro n
    exact ⟨_, rfl⟩

/-- Witness for C7 at concrete constructions. -/
theorem c7_charge_configuration_errors_witness :
    mkSingleActiveCellOccupancy cellsEx 1 1 (some "q") 2 =
      .error .chargeWithCompositeCellLevel ∧
    mkLeafUnitCellVetoEventHandler 3 (some "q") = .error .chargeArgumentCount ∧
    (∃ s, mkSingleActiveCellOccupancy cellsEx 1 1 none 2 = .ok s) ∧
    (∃ g, mkLeafUnitCellVetoEventHandler 3 none = .ok g) :=
  ⟨c7_charge_configuration_errors.1 cellsEx 1 1 "q" 2 (by norm_num),
   c7_charge_configuration_errors.2.1 3 "q" (by norm_num),
   c7_charge_configuration_errors.2.2.1 cellsEx 1 1 2,
   c7_charge_configuration_errors.2.2.2 3⟩

/-- C8: once the end-of-chain handler holds a previous candidate time, a
`send_event_time` call whose newly supplied time stamp lies strictly outside
the closed interval from the previous candidate time to the next candidate time
(previous candidate time plus chain time) fails with an assertion error, while
every time stamp inside the interval is accepted and the next candidate time is
returned. -/
theorem c8_time_stamp_window {h : EndOfChainEventHandler} {prev ts : ℚ}
    (hprev : h.eventTime = some prev) :
    ((ts < prev ∨ prev + h.chainTime < ts) →
      h.sendEventTime ts = .error .assertionError) ∧
    (prev ≤ ts → ts ≤ prev + h.chainTime →
      h.sendEventTime ts =
        .ok ({ h with eventTime := some (prev + h.chainTime) },
          prev + h.chainTime)) := by
  constructor
  · intro hout
    rw [EndOfChainEventHandler.sendEventTime]
    simp only [hprev]
    rw [if_neg ?_]
    rcases hout with h1 | h1
    · exact fun hand => absurd hand.1 (not_le.mpr h1)
    · exact fun hand => absurd hand.2 (not_le.mpr h1)
  · intro hl hr
    rw [EndOfChainEventHandler.sendEventTime]
    simp only [hprev]
    rw [if_pos ⟨hl, hr⟩]

/-- Witness for C8: chain time 0.7, previous candidate time 0.7; the stamps
0.7 - 1.0e-13 and 1.4 + 1.0e-13 both assert, the stamp 0.7 is accepted. -/
theorem c8_time_stamp_window_witness :
    eocEx.sendEventTime (7/10 - 1/10^13) = .error .assertionError ∧
    eocEx.sendEventTime (14/10 + 1/10^13) = .error .assertionError ∧
    eocEx.sendEventTime (7/10) =
      .ok ({ eocEx with eventTime := some (7/10 + eocEx.chainTime) },
        7/10 + eocEx.chainTime) :=
  ⟨(c8_time_stamp_window rfl).1 (Or.inl (by norm_num)),
   (c8_time_stamp_window rfl).1
     (Or.inr (show (7 : ℚ)/10 + 7/10 < 14/10 + 1/10^13 by norm_num)),
   (c8_time_stamp_window rfl).2 (by norm_num)
     (show (7 : ℚ)/10 ≤ 7/10 + 7/10 by norm_num)⟩

end ClaimTheorems

end JellyFysh
